import Mathlib

/-!
Verification of the extension-collection subsystem of the `gild` / `glaze`
plugin framework (`glaze/utils/plugin_tools.py`, `glaze/utils/declarator.py`,
`glaze/utils/atom_util.py`).

Python dictionaries are modelled as insertion-ordered association lists:
`lookupD` is `d[k]` / `k in d`, `dictInsert` is `d[k] = v` (replacing a
present key keeps its position, as CPython does), `extendEntry` is
`defaultdict(list)`'s `d[k].extend(vs)`, `dictUpdate` is `d.update(other)`
and `dictRemove` is `del d[k]`.
-/

/-- Membership-ordered association-list lookup: Python `d.get(k)` / `d[k]`. -/
def lookupD {κ α : Type} [DecidableEq κ] : List (κ × α) → κ → Option α
  | [], _ => none
  | p :: rest, k => if p.1 = k then some p.2 else lookupD rest k

/-- Python `k in d`. -/
def hasKeyD {κ α : Type} [DecidableEq κ] (d : List (κ × α)) (k : κ) : Bool :=
  (lookupD d k).isSome

/-- Python `d[k] = v`: replace in place if the key is present (CPython keeps
the key's position), append otherwise. -/
def dictInsert {κ α : Type} [DecidableEq κ] : List (κ × α) → κ → α → List (κ × α)
  | [], k, v => [(k, v)]
  | p :: rest, k, v => if p.1 = k then (k, v) :: rest else p :: dictInsert rest k v

/-- Python `defaultdict(list)`'s `d[k].extend(vs)`: extend the list stored at
`k` in place, creating an empty entry first when the key is missing. -/
def extendEntry {κ α : Type} [DecidableEq κ] : List (κ × List α) → κ → List α → List (κ × List α)
  | [], k, vs => [(k, vs)]
  | p :: rest, k, vs => if p.1 = k then (k, p.2 ++ vs) :: rest else p :: extendEntry rest k vs

/-- Python `d.update(other)`: insert `other`'s entries in order. -/
def dictUpdate {κ α : Type} [DecidableEq κ] (base : List (κ × α)) : List (κ × α) → List (κ × α)
  | [] => base
  | p :: rest => dictUpdate (dictInsert base p.1 p.2) rest

/-- Python `del d[k]`. -/
def dictRemove {κ α : Type} [DecidableEq κ] : List (κ × α) → κ → List (κ × α)
  | [], _ => []
  | p :: rest, k => if p.1 = k then rest else p :: dictRemove rest k

/-- The ASCII apostrophe (U+0027), used verbatim by several error messages in
`plugin_tools.py`. -/
def quoteChar : String := String.singleton (Char.ofNat 39)

/-!
### `ExtensionsCollector` (`glaze/utils/plugin_tools.py`)

A contribution object is identified by its mandatory `id`, the name of its
dynamic type (used for the `isinstance(contrib, self.ext_class)` check) and a
`tag` acting as a surrogate for Python object identity, so that two distinct
contribution objects carrying the same `id` can be told apart.
-/

/-- A contribution object handled by `ExtensionsCollector`. -/
structure Contribution where
  id : String
  ctype : String
  tag : Nat
deriving DecidableEq, Repr

/-- An enaml `Extension`: `get_children(ext_class)` is modelled by filtering
`children` on the expected type names, and `factory(workbench)` by the
(pure) list `factory` when present. -/
structure Extension where
  qualified_id : String
  children : List Contribution
  factory : Option (List Contribution)
deriving DecidableEq, Repr

/-- Rendering of `ClassTuple.__str__`: `", ".join(c.__name__ for c in self)`. -/
def classTupleStr (extClass : List String) : String :=
  String.intercalate ", " extClass

/-- `TypeError` message raised by `ExtensionsCollector._load_contributions`:
`"extension '{}' created non-{}."`. -/
def loadTypeErrMsg (extClass : List String) (qid : String) : String :=
  "extension " ++ quoteChar ++ qid ++ quoteChar ++ " created non-" ++ classTupleStr extClass ++ "."

/-- The factory loop of `_load_contributions`: append each produced object
after the `isinstance` check, raising `TypeError` at the first failure. -/
def factoryLoop (extClass : List String) (qid : String) : List Contribution → Except String (List Contribution)
  | [] => .ok []
  | c :: rest =>
    if extClass.contains c.ctype then
      (factoryLoop extClass qid rest).map (fun cs => c :: cs)
    else
      .error (loadTypeErrMsg extClass qid)

/-- `ExtensionsCollector._load_contributions`: children of the expected
type(s); if none and a factory is declared, the factory output (type-checked
item by item). `.error` models the raised `TypeError`. -/
def load_contributions (extClass : List String) (ext : Extension) : Except String (List Contribution) :=
  let contribs := ext.children.filter (fun c => extClass.contains c.ctype)
  match ext.factory with
  | some made => if contribs.isEmpty then factoryLoop extClass ext.qualified_id made else .ok contribs
  | none => .ok contribs

/-- Whether `_load_contributions` invokes the user factory for `ext`. -/
def factoryInvoked (extClass : List String) (ext : Extension) : Bool :=
  ext.factory.isSome && (ext.children.filter (fun c => extClass.contains c.ctype)).isEmpty

/-- State of an `ExtensionsCollector`: the published `contributions` mapping
and the private `_extensions` cache (extension to loaded contribution list). -/
structure ExtState where
  contributions : List (String × Contribution)
  extensions : List (Extension × List Contribution)
deriving DecidableEq, Repr

/-- Accumulator of the first loop of `_refresh_contributions` (building
`new_extensions`): the cache under construction, the traceback dict, and the
number of user-factory invocations performed so far. -/
structure BuildAcc where
  newExts : List (Extension × List Contribution)
  tb : List (String × String)
  fcalls : Nat
deriving Repr

/-- First loop of `_refresh_contributions`: reuse the cached contribution
list of a known extension, load a new one (recording a raised `TypeError` in
the traceback under `"Extension <qualified_id>"` and skipping the extension). -/
def buildExts (extClass : List String) (old : List (Extension × List Contribution)) :
    List Extension → BuildAcc → BuildAcc
  | [], acc => acc
  | e :: rest, acc =>
    if hasKeyD old e then
      buildExts extClass old rest
        { acc with newExts := extendEntry acc.newExts e ((lookupD old e).getD []) }
    else
      let fc := acc.fcalls + (if factoryInvoked extClass e then 1 else 0)
      match load_contributions extClass e with
      | .error m =>
        buildExts extClass old rest
          { acc with tb := dictInsert acc.tb ("Extension " ++ e.qualified_id) m, fcalls := fc }
      | .ok cs =>
        buildExts extClass old rest
          { acc with newExts := extendEntry acc.newExts e cs, fcalls := fc }

/-- `"Duplicate <id>_{}"` key pattern of `_refresh_contributions`. -/
def dupKey (cid : String) (i : Nat) : String :=
  "Duplicate " ++ cid ++ "_" ++ toString i

/-- The `while pattern.format(i) in tb: i += 1` search for a fresh duplicate
key; `fuel` bounds the search (a fuel of `tb.length + 1` always suffices
since `tb` holds only `tb.length` keys). -/
def freshDupIdx (tb : List (String × String)) (cid : String) : Nat → Nat → Nat
  | 0, i => i
  | fuel + 1, i => if hasKeyD tb (dupKey cid i) then freshDupIdx tb cid fuel (i + 1) else i

/-- Duplicate-id message: `"{} attempted to register already registered '{}'"`. -/
def dupMsg (qid cid : String) : String :=
  qid ++ " attempted to register already registered " ++ quoteChar ++ cid ++ quoteChar

/-- Validation-failure message: `"While loading {}," + msg`. -/
def valMsg (qid msg : String) : String :=
  "While loading " ++ qid ++ "," ++ msg

/-- Accumulator of the mapping-building loop of `_refresh_contributions`. -/
structure MapAcc where
  contribs : List (String × Contribution)
  tb : List (String × String)
deriving Repr

/-- Inner body of the mapping loop: record a duplicate under a fresh
`"Duplicate <id>_<n>"` key, record a validation failure under the
contribution's id, then install the contribution unconditionally
(`contribs[contrib.id] = contrib`). -/
def processContribs (validate : Contribution → Bool × String) (e : Extension) :
    List Contribution → MapAcc → MapAcc
  | [], acc => acc
  | c :: cs, acc =>
    let tb1 :=
      if hasKeyD acc.contribs c.id then
        dictInsert acc.tb (dupKey c.id (freshDupIdx acc.tb c.id (acc.tb.length + 1) 0))
          (dupMsg e.qualified_id c.id)
      else acc.tb
    let tb2 :=
      match validate c with
      | (true, _) => tb1
      | (false, m) => dictInsert tb1 c.id (valMsg e.qualified_id m)
    processContribs validate e cs { contribs := dictInsert acc.contribs c.id c, tb := tb2 }

/-- `defaultdict(list).__getitem__`: return the stored list for a present
key; for a missing key insert an empty list (at the end, in dict insertion
order) and return it. -/
def dictSetdefault (ne : List (Extension × List Contribution)) (e : Extension) :
    List (Extension × List Contribution) × List Contribution :=
  match lookupD ne e with
  | some cs => (ne, cs)
  | none => (ne ++ [(e, [])], [])

/-- Second loop of `_refresh_contributions`: iterate the point's extensions
again and fold their (cached) contributions into the id-keyed mapping.
`new_extensions[extension]` is a `defaultdict(list)` subscript: for an
extension whose load raised `TypeError` in the first loop it inserts an
empty entry, which line 303 then stores into `self._extensions` — so the
failed extension counts as known on the next refresh. The threaded dict is
returned alongside the mapping accumulator. -/
def buildMapping (validate : Contribution → Bool × String) :
    List Extension → List (Extension × List Contribution) → MapAcc →
    List (Extension × List Contribution) × MapAcc
  | [], ne, acc => (ne, acc)
  | e :: rest, ne, acc =>
    buildMapping validate rest (dictSetdefault ne e).1
      (processContribs validate e (dictSetdefault ne e).2 acc)

/-- Result of one `_refresh_contributions` call: the two reassigned members,
the traceback, the number of assignments to the observable `contributions`
member performed by the call, the number of user-factory invocations, and
whether the batched `glaze.errors.signal` command was invoked. -/
structure RefreshOut where
  contributions : List (String × Contribution)
  extensions : List (Extension × List Contribution)
  tb : List (String × String)
  publishes : Nat
  factoryCalls : Nat
  signaled : Bool
deriving DecidableEq, Repr

/-- `ExtensionsCollector._refresh_contributions`. `pointExts` is
`point.extensions` (the empty list also covers a missing point). -/
def refresh_contributions (extClass : List String) (validate : Contribution → Bool × String)
    (pointExts : List Extension) (st : ExtState) : RefreshOut :=
  if pointExts.isEmpty then
    { contributions := [], extensions := [], tb := [],
      publishes := 1, factoryCalls := 0, signaled := false }
  else
    let b := buildExts extClass st.extensions pointExts ⟨[], [], 0⟩
    let m := buildMapping validate pointExts b.newExts ⟨[], b.tb⟩
    { contributions := m.2.contribs, extensions := m.1, tb := m.2.tb,
      publishes := 1, factoryCalls := b.fcalls, signaled := !m.2.tb.isEmpty }

/-- The state an `ExtensionsCollector` holds after a refresh. -/
def refreshState (o : RefreshOut) : ExtState :=
  { contributions := o.contributions, extensions := o.extensions }

/-- First extension of `_extensions` whose cached list contains `c`
(the `for ext, cs in self._extensions.items()` reverse-lookup loop). -/
def findContributor (exts : List (Extension × List Contribution)) (c : Contribution) :
    Option Extension :=
  match exts with
  | [] => none
  | p :: rest => if c ∈ p.2 then some p.1 else findContributor rest c

/-- `ExtensionsCollector.contributed_by`: `self.contributions[contrib_id]`
raises `KeyError` for an absent id (modelled by `.error`); otherwise the
first tracked extension whose list contains the object is returned (`none`
when the loop falls through). -/
def contributed_by (st : ExtState) (contrib_id : String) : Except String (Option Extension) :=
  match lookupD st.contributions contrib_id with
  | none => .error ("KeyError: " ++ contrib_id)
  | some contrib => .ok (findContributor st.extensions contrib)

/-!
### `BaseCollector.stop` (`glaze/utils/plugin_tools.py`, lines 165-175)

`stop` runs `self.contributions.clear()` and `self._extensions.clear()`:
`dict.clear` empties the dictionary *object* in place, so a caller-held
reference to a previously published mapping is affected. To make object
identity observable, dictionaries live in an explicit heap indexed by
addresses and the collector holds addresses, exactly as CPython references.
-/

/-- Heap of contribution-dict objects and of extension-tracking dict objects,
indexed by address. -/
structure DictHeap where
  contribDicts : List (List (String × Contribution))
  extDicts : List (List (Extension × List Contribution))
deriving DecidableEq, Repr

/-- A `BaseCollector` as a pair of references into the heap. -/
structure BCRefs where
  contributionsRef : Nat
  extensionsRef : Nat
deriving DecidableEq, Repr

/-- Dereference a contribution-dict address. -/
def readContribDict (h : DictHeap) (a : Nat) : List (String × Contribution) :=
  h.contribDicts.getD a []

/-- `BaseCollector.stop`: unobserve (no modelled state), then
`self.contributions.clear()` and `self._extensions.clear()` — both in-place
`dict.clear` calls on the objects the collector's members point to. The
member references themselves are not reassigned. -/
def collector_stop (h : DictHeap) (c : BCRefs) : DictHeap × BCRefs :=
  ({ contribDicts := h.contribDicts.set c.contributionsRef [],
     extDicts := h.extDicts.set c.extensionsRef [] }, c)

/-!
### `DeclaratorCollector` (`glaze/utils/plugin_tools.py`, lines 341-474)

A `Declarator.register(collector, traceback)` call may arbitrarily modify the
collector's `contributions` dict, its `_delayed` list and the traceback dict
(`declarator.py` documents that a declarator adds contributions to
`contributions` and may append itself to `_delayed`). The collector is
therefore parameterised by the declarators' behaviour `beh`, a function from
the registering declarator and the mutable state to the new state; the
collector-level `register`/`unregister`/load calls are recorded in a trace.
-/

/-- A declarator contribution: identity surrogate `did` plus the name of its
dynamic type (for the `isinstance` check of `_get_decls`). -/
structure Decl where
  did : Nat
  ctype : String
deriving DecidableEq, Repr

/-- An extension contributing declarators (same loading interface as
`Extension`). -/
structure DExt where
  qualified_id : String
  children : List Decl
  factory : Option (List Decl)
deriving DecidableEq, Repr

/-- `TypeError` message of `DeclaratorCollector._get_decls`:
`"Extension '{}' should create {} not {}."`. -/
def getDeclsErrMsg (extClass : List String) (qid tyname : String) : String :=
  "Extension " ++ quoteChar ++ qid ++ quoteChar ++ " should create " ++
    classTupleStr extClass ++ " not " ++ tyname ++ "."

/-- Factory loop of `_get_decls` (same shape as `factoryLoop`). -/
def declFactoryLoop (extClass : List String) (qid : String) : List Decl → Except String (List Decl)
  | [] => .ok []
  | d :: rest =>
    if extClass.contains d.ctype then
      (declFactoryLoop extClass qid rest).map (fun ds => d :: ds)
    else
      .error (getDeclsErrMsg extClass qid d.ctype)

/-- `DeclaratorCollector._get_decls`. -/
def get_decls (extClass : List String) (ext : DExt) : Except String (List Decl) :=
  let contribs := ext.children.filter (fun d => extClass.contains d.ctype)
  match ext.factory with
  | some made => if contribs.isEmpty then declFactoryLoop extClass ext.qualified_id made else .ok contribs
  | none => .ok contribs

/-- Collector state a declarator's `register` may act upon: the
`contributions` dict (contribution ids mapped to declarator identities), the
`_delayed` retry list and the traceback dict handed to `register`. -/
structure RegSt where
  contributions : List (String × Nat)
  delayed : List Decl
  tb : List (String × String)
deriving DecidableEq, Repr

/-- Behaviour of the contributed declarators: the effect of one
`declarator.register(collector, traceback)` call. -/
def DeclBeh : Type := Decl → RegSt → RegSt

/-- Collector-level events: a `_get_decls` load of an extension, a
`declarator.register` call, a `declarator.unregister` call. -/
inductive Ev where
  | load (qid : String)
  | reg (did : Nat)
  | unreg (did : Nat)
deriving DecidableEq, Repr

/-- Persistent state of a `DeclaratorCollector`. -/
structure DCState where
  contributions : List (String × Nat)
  extensions : List (DExt × List Decl)
  delayed : List Decl
deriving DecidableEq, Repr

/-- First loop of `_register_decls`, building `new_extensions`. The loop
variable `declarators` is only assigned in the `extension not in
old_extensions` branch, so for an already-tracked extension the *previous*
iteration's value is reused (`last`); when no previous iteration assigned it
the Python code raises `NameError` (modelled by `.error`). An extension whose
`_get_decls` raises `TypeError` is recorded in the traceback and skipped. -/
def declPhase1 (extClass : List String) (old : List (DExt × List Decl)) :
    List DExt → Option (List Decl) → List (DExt × List Decl) → List (String × String) →
    Except String (List (DExt × List Decl) × List (String × String) × List Ev)
  | [], _, ne, tb => .ok (ne, tb, [])
  | e :: rest, last, ne, tb =>
    if hasKeyD old e then
      match last with
      | none => .error "NameError: name declarators is not defined"
      | some ds => declPhase1 extClass old rest last (extendEntry ne e ds) tb
    else
      match get_decls extClass e with
      | .error m =>
        (declPhase1 extClass old rest last ne
            (dictInsert tb ("Extension " ++ e.qualified_id) m)).map
          (fun r => (r.1, r.2.1, Ev.load e.qualified_id :: r.2.2))
      | .ok ds =>
        (declPhase1 extClass old rest (some ds) (extendEntry ne e ds) tb).map
          (fun r => (r.1, r.2.1, Ev.load e.qualified_id :: r.2.2))

/-- Call `register` on each declarator of a list, in order. -/
def regList (beh : DeclBeh) : List Decl → RegSt → RegSt × List Ev
  | [], s => (s, [])
  | d :: ds, s =>
    let r := regList beh ds (beh d s)
    (r.1, Ev.reg d.did :: r.2)

/-- Second loop of `_register_decls`: register every declarator of every
entry of `new_extensions`, in insertion order. -/
def regAll (beh : DeclBeh) : List (DExt × List Decl) → RegSt → RegSt × List Ev
  | [], s => (s, [])
  | p :: rest, s =>
    let r := regList beh p.2 s
    let r2 := regAll beh rest r.1
    (r2.1, r.2 ++ r2.2)

/-- The `while old != len(self._delayed) and self._delayed:` retry drain of
`_register_decls`. One fuel unit is one loop-condition check; when the fuel
runs out the Boolean is `false` (the concrete Python loop would still be
running). A pass copies `_delayed`, empties it, and re-registers the copy. -/
def drainDelayed (beh : DeclBeh) : Nat → Nat → RegSt → RegSt × List Ev × Bool
  | 0, _, s => (s, [], false)
  | fuel + 1, old, s =>
    if old ≠ s.delayed.length ∧ s.delayed ≠ [] then
      let pass := regList beh s.delayed { s with delayed := [] }
      let r := drainDelayed beh fuel s.delayed.length pass.1
      (r.1, pass.2 ++ r.2.1, r.2.2)
    else
      (s, [], true)

/-- `"Missing declarations"` message of `_register_decls`:
`"Some declarations have not been registered : {}"`. -/
def missingMsg (delayed : List Decl) : String :=
  "Some declarations have not been registered : " ++ toString (delayed.map Decl.did)

/-- Result of `_register_decls`: the collector state, the traceback, the
collector-level event trace, whether the retry drain exited its loop (rather
than running forever), whether the forced re-notification of `contributions`
was performed, and whether the batched error signal was sent. -/
structure RDOut where
  state : DCState
  tb : List (String × String)
  trace : List Ev
  drainExited : Bool
  renotified : Bool
  signaled : Bool
deriving DecidableEq, Repr

/-- `DeclaratorCollector._register_decls`. The drain loop is given
`length + 1` fuel units, which the termination theorem shows to be enough
whenever every deferred declarator re-adds only itself. -/
def register_decls (beh : DeclBeh) (extClass : List String)
    (exts : List DExt) (st : DCState) : Except String RDOut :=
  match declPhase1 extClass st.extensions exts none [] [] with
  | .error e => .error e
  | .ok (newExts, tb1, tr1) =>
    let s0 : RegSt := { contributions := st.contributions, delayed := st.delayed, tb := tb1 }
    let p2 := regAll beh newExts s0
    let p3 := drainDelayed beh (p2.1.delayed.length + 1) 0 p2.1
    let tb2 := if p3.1.delayed ≠ [] then
        dictInsert p3.1.tb "Missing declarations" (missingMsg p3.1.delayed)
      else p3.1.tb
    .ok { state := { contributions := p3.1.contributions,
                     extensions := dictUpdate st.extensions newExts,
                     delayed := p3.1.delayed },
          tb := tb2,
          trace := tr1 ++ p2.2 ++ p3.2.1,
          drainExited := p3.2.2,
          renotified := p3.1.contributions ≠ st.contributions,
          signaled := !tb2.isEmpty }

/-- Behaviour of one `declarator.unregister(self)` call, acting on the
`contributions` dict (no traceback is passed to `unregister`). -/
def UnregBeh : Type := Decl → List (String × Nat) → List (String × Nat)

/-- Unregister every declarator of a list, in order. -/
def unregList (ubeh : UnregBeh) : List Decl → List (String × Nat) → List (String × Nat) × List Ev
  | [], s => (s, [])
  | d :: ds, s =>
    let r := unregList ubeh ds (ubeh d s)
    (r.1, Ev.unreg d.did :: r.2)

/-- `DeclaratorCollector._unregister_decls`: unregister each removed
extension's declarators and drop the extension from `_extensions`. -/
def unregister_decls (ubeh : UnregBeh) :
    List (DExt × List Decl) → DCState → DCState × List Ev
  | [], st => (st, [])
  | p :: rest, st =>
    let r := unregList ubeh p.2 st.contributions
    let r2 := unregister_decls ubeh rest
      { st with contributions := r.1, extensions := dictRemove st.extensions p.1 }
    (r2.1, r.2 ++ r2.2)

/-- Result of `_on_contribs_updated`. -/
structure UpdOut where
  state : DCState
  trace : List Ev
deriving DecidableEq, Repr

/-- `DeclaratorCollector._on_contribs_updated` for a change notification
carrying the point's `oldExts`/`newExts` extension lists: empty new set gives
the hard reset (`self.contributions = {}`, `self._extensions.clear()`);
otherwise removed extensions are unregistered first and added ones registered
afterwards. -/
def on_contribs_updated (beh : DeclBeh) (ubeh : UnregBeh) (extClass : List String)
    (oldExts newExts : List DExt) (st : DCState) : Except String UpdOut :=
  if newExts.isEmpty then
    .ok { state := { contributions := [], extensions := [], delayed := st.delayed }, trace := [] }
  else
    let removedMap := st.extensions.filter
      (fun p => oldExts.contains p.1 && !(newExts.contains p.1))
    let added := newExts.filter (fun e => !(oldExts.contains e))
    let (st1, trU) := unregister_decls ubeh removedMap st
    (register_decls beh extClass added st1).map
      (fun r => { state := r.state, trace := trU ++ r.trace })

/-!
### `GroupDeclarator` (`glaze/utils/declarator.py`, lines 94-145)

`register` validates `self.path` against `PATH_VALIDATOR`, records an invalid
path under `"Error <len(traceback)>"` and returns *without* setting
`is_registered`; otherwise it registers every `Declarator` child and sets
`is_registered = True`. `unregister` forwards to the children and clears the
flag only when `is_registered` is set. Children are modelled by their
identities (all of them `Declarator`s); child `register`/`unregister` calls
are recorded as events.
-/

/-- A regex word character (`\w`, ASCII reading): letter, digit or
underscore. -/
def wordChar (c : Char) : Bool := c.isAlphanum || c = Char.ofNat 95

/-- Character-level reading of `PATH_VALIDATOR = r"^(\.?\w+)*$"`: every
character is a word character or a dot, no dot is followed by a dot, and the
string does not end with a dot (the empty string matches). -/
def pathValidAux : List Char → Bool
  | [] => true
  | [c] => wordChar c
  | c :: c2 :: rest =>
    if c = Char.ofNat 46 then wordChar c2 && pathValidAux (c2 :: rest)
    else wordChar c && pathValidAux (c2 :: rest)

/-- `PATH_VALIDATOR.match(path)` as a Boolean. -/
def pathValid (s : String) : Bool := pathValidAux s.toList

/-- State of a `GroupDeclarator`: the `is_registered` flag, the declared
`path` and `group` strings, and the children (identities). -/
structure GroupDecl where
  is_registered : Bool
  path : String
  group : String
  children : List Nat
deriving DecidableEq, Repr

/-- Child-level events of a `GroupDeclarator`. -/
inductive GEv where
  | childReg (c : Nat)
  | childUnreg (c : Nat)
deriving DecidableEq, Repr

/-- Invalid-path message: `"Invalid path {} in {} (path {}, group {})"`. -/
def invalidPathMsg (g : GroupDecl) : String :=
  "Invalid path " ++ g.path ++ " in GroupDeclarator (path " ++ g.path ++
    ", group " ++ g.group ++ ")"

/-- `GroupDeclarator.register`: on an invalid path, record the error under
`"Error <len(traceback)>"` and return early (the flag stays clear); otherwise
register every child and set `is_registered`. -/
def group_register (g : GroupDecl) (tb : List (String × String)) :
    GroupDecl × List (String × String) × List GEv :=
  if pathValid g.path then
    ({ g with is_registered := true }, tb, g.children.map GEv.childReg)
  else
    (g, dictInsert tb ("Error " ++ toString tb.length) (invalidPathMsg g), [])

/-- `GroupDeclarator.unregister`: forward to the children and clear the flag
only when `is_registered` is set; otherwise do nothing. -/
def group_unregister (g : GroupDecl) : GroupDecl × List GEv :=
  if g.is_registered then
    ({ g with is_registered := false }, g.children.map GEv.childUnreg)
  else
    (g, [])

/-- A call made on a `GroupDeclarator`. -/
inductive GOp where
  | reg
  | unreg
deriving DecidableEq, Repr

/-- Run a sequence of `register`/`unregister` calls, threading the traceback
and collecting all child-level events. -/
def runGroupOps : GroupDecl → List (String × String) → List GOp →
    GroupDecl × List (String × String) × List GEv
  | g, tb, [] => (g, tb, [])
  | g, tb, GOp.reg :: ops =>
    let r := group_register g tb
    let r2 := runGroupOps r.1 r.2.1 ops
    (r2.1, r2.2.1, r.2.2 ++ r2.2.2)
  | g, tb, GOp.unreg :: ops =>
    let r := group_unregister g
    let r2 := runGroupOps r.1 tb ops
    (r2.1, r2.2.1, r.2 ++ r2.2.2)

/-- Number of `register` calls of a call sequence that complete (set the
flag): on a valid path every `register` completes, on an invalid one none
does (the path never changes across calls). -/
def completedRegs (g : GroupDecl) (ops : List GOp) : Nat :=
  if pathValid g.path then ops.count GOp.reg else 0

/-!
### Preference synchronisation (`glaze/utils/atom_util.py`, lines 214-251)

A structured state object is modelled as an ordered list of members, each
tagged `pref=True` and holding a value of one of the supported kinds: string,
float (kept opaque — only carried around, never computed with), enum (the
selected index), list of primitives, or a nested object implementing the same
contract. `member_to_pref`/`member_from_pref` with `pref=True` pass the value
through unchanged (`atom_util.py` lines 163-164 and 92-94). Members of
`Constant` kind and members whose current value is `None` (both skipped by
`update_members_from_preferences`) are outside the kinds the claim covers and
are not modelled.
-/

mutual
/-- A member value of one of the supported preference kinds. -/
inductive PrefVal where
  | vstr (s : String)
  | vfloat (repr : String)
  | venum (idx : Nat)
  | vlist (xs : List String)
  | vobj (o : PrefObj)

/-- An ordered member list (name to value), each member tagged `pref=True`. -/
inductive PrefObj where
  | nil
  | cons (name : String) (v : PrefVal) (rest : PrefObj)
end

/-- Member lookup by name (`parameters[name]` on the saved document, which
shares the member structure). -/
def prefLookup (name : String) : PrefObj → Option PrefVal
  | .nil => none
  | .cons n v rest => if n = name then some v else prefLookup name rest

/-- `member_to_pref` for a `pref=True` member: the value is passed through
(`pref_value = val`). -/
def member_to_pref (v : PrefVal) : PrefVal := v

/-- `member_from_pref` for a `pref=True` member: the stored value is passed
through (`value = val`). -/
def member_from_pref (v : PrefVal) : PrefVal := v

/-- `preferences_from_members`: recurse into nested objects, pass every other
tagged value through `member_to_pref`. -/
def preferences_from_members : PrefObj → PrefObj
  | .nil => .nil
  | .cons n (.vobj o) rest => .cons n (.vobj (preferences_from_members o)) (preferences_from_members rest)
  | .cons n v rest => .cons n (member_to_pref v) (preferences_from_members rest)

/-- `update_members_from_preferences`: a member absent from the parameters is
skipped; a nested object recurses into the stored sub-document (a non-mapping
stored value makes the recursive Python call fail, modelled by `.error`); any
other member is assigned `member_from_pref` of the stored value. -/
def update_members_from_preferences : PrefObj → PrefObj → Except String PrefObj
  | .nil, _ => .ok .nil
  | .cons n v rest, params =>
    match prefLookup n params with
    | none => (update_members_from_preferences rest params).map (.cons n v)
    | some p =>
      match v with
      | .vobj o =>
        match p with
        | .vobj po => do
          let o2 ← update_members_from_preferences o po
          let rest2 ← update_members_from_preferences rest params
          .ok (.cons n (.vobj o2) rest2)
        | _ => .error ("TypeError: member " ++ n ++ " expected a mapping")
      | _ => (update_members_from_preferences rest params).map (.cons n (member_from_pref p))

/-- Member names of an object, in order. -/
def prefNames : PrefObj → List String
  | .nil => []
  | .cons n _ rest => n :: prefNames rest

mutual
/-- Well-formedness of a member value: nested objects are well formed. -/
def wfVal : PrefVal → Bool
  | .vobj o => wfObj o
  | _ => true

/-- Well-formedness of an object, mirroring the guarantee `atom` gives for
real objects: member names are unique (members live in a dict) and nested
objects are well formed. -/
def wfObj : PrefObj → Bool
  | .nil => true
  | .cons n v rest => !(prefNames rest).contains n && wfVal v && wfObj rest
end

/-- The default `validate_ext` of `ExtensionsCollector`:
`lambda e: (True, "")`. -/
def defaultValidate : Contribution → Bool × String := fun _ => (true, "")

/-- Two extensions, in point order, both contributing a contribution with
id `"x"` (the setting of the collision-policy claim). -/
def dupExtPair (qA qB : String) (tA tB : Nat) : List Extension :=
  [⟨qA, [⟨"x", "C", tA⟩], none⟩, ⟨qB, [⟨"x", "C", tB⟩], none⟩]

/-- Value stored in the saved document for one member: nested objects are
saved recursively, every other `pref=True` value goes through
`member_to_pref`. -/
def saveVal : PrefVal → PrefVal
  | .vobj o => .vobj (preferences_from_members o)
  | v => member_to_pref v

/-- A concrete object exercising every supported kind. -/
def c9Obj : PrefObj :=
  .cons "s" (.vstr "hello")
    (.cons "f" (.vfloat "1.5")
      (.cons "e" (.venum 1)
        (.cons "l" (.vlist ["a", "b"])
          (.cons "sub" (.vobj (.cons "i" (.vstr "5") .nil)) .nil))))

/-- A declarator behaviour whose `register` completes without touching the
collector (the simplest legal behaviour). -/
def behNop : DeclBeh := fun _ s => s

/-- An already-tracked extension (present in `_extensions`) and its
declarator. -/
def trackedDecl : Decl := ⟨1, "C"⟩

def trackedExt : DExt := ⟨"qT", [trackedDecl], none⟩

/-- A new extension and its declarator. -/
def newDecl : Decl := ⟨5, "C"⟩

def newExt : DExt := ⟨"qN", [newDecl], none⟩

/-- Collector state in which `trackedExt` is already tracked. -/
def c6State : DCState := ⟨[], [(trackedExt, [trackedDecl])], []⟩

/-- Behaviour following the contract `declarator.py` documents for
`register`: a declarator that cannot register yet adds only itself to the
collector's `_delayed` list. -/
def behDeferSelf : DeclBeh := fun d s => { s with delayed := s.delayed ++ [d] }

/-- An adversarial behaviour whose every `register` call appends two entries
to `_delayed`. -/
def behGrow : DeclBeh := fun d s => { s with delayed := s.delayed ++ [d, d] }

/-- The retry drain loop never reaches its exit condition, regardless of the
number of loop iterations granted. -/
def drainDiverges (beh : DeclBeh) (old : Nat) (s : RegSt) : Prop :=
  ∀ fuel, (drainDelayed beh fuel old s).2.2 = false

/-- The deferral contract of `Declarator.register`: one `register` call
either leaves `_delayed` unchanged or appends exactly the registering
declarator itself. -/
def DefersSelfOnly (beh : DeclBeh) : Prop :=
  ∀ (d : Decl) (s : RegSt), (beh d s).delayed = s.delayed ∨ (beh d s).delayed = s.delayed ++ [d]

/-- The result of `_register_decls` for a single extension whose declarator
defers itself forever. -/
def c5Out : RDOut :=
  { state := { contributions := [], extensions := [(newExt, [newDecl])], delayed := [newDecl] },
    tb := [("Missing declarations", missingMsg [newDecl])],
    trace := [Ev.load "qN", Ev.reg 5, Ev.reg 5],
    drainExited := true,
    renotified := false,
    signaled := true }

/-- An extension whose factory produces a contribution of the wrong type:
its first load raises `TypeError`; the second loop's `defaultdict` access
then caches it with an empty contribution list, so it is never reloaded. -/
def factErrExt : Extension := ⟨"qF", [], some [⟨"y", "D", 3⟩]⟩

/-- The contribution list `_refresh_contributions` processes for one
extension on the point: the cached list for a known extension, the loaded
contributions for a new one (empty when loading raised `TypeError` — the
extension is then skipped). -/
def processedContribs (extClass : List String) (st : ExtState) (e : Extension) :
    List Contribution :=
  if hasKeyD st.extensions e then (lookupD st.extensions e).getD []
  else
    match load_contributions extClass e with
    | .ok cs => cs
    | .error _ => []

/-!
### Claim theorems

Shared lemmas about the dictionary operations.
-/

theorem lookupD_dictInsert_self {κ α : Type} [DecidableEq κ] (d : List (κ × α)) (k : κ) (v : α) :
    lookupD (dictInsert d k v) k = some v := by
  induction d with
  | nil => simp [dictInsert, lookupD]
  | cons p rest ih =>
    by_cases h : p.1 = k
    · simp [dictInsert, lookupD, h]
    · simp [dictInsert, lookupD, h, ih]

theorem lookupD_dictInsert_ne {κ α : Type} [DecidableEq κ] (d : List (κ × α)) (k k2 : κ) (v : α)
    (h : k ≠ k2) : lookupD (dictInsert d k v) k2 = lookupD d k2 := by
  induction d with
  | nil => simp [dictInsert, lookupD, h]
  | cons p rest ih =>
    by_cases hp : p.1 = k
    · simp [dictInsert, lookupD, hp, h]
    · simp only [dictInsert, lookupD, if_neg hp]
      by_cases hp2 : p.1 = k2 <;> simp [hp2, ih]

/-- Claim C1, counterexample: with extensions `[A, B]` in point order both
contributing id `"x"`, the published `contributions["x"]` is B's object
(tag 2), not A's object (tag 1) as the claim states: the assignment
`contribs[contrib.id] = contrib` of `_refresh_contributions` is
unconditional, so the later extension overwrites the earlier one. -/
theorem c1_counterexample :
    lookupD (refresh_contributions ["C"] defaultValidate (dupExtPair "qA" "qB" 1 2)
      ⟨[], []⟩).contributions "x" = some ⟨"x", "C", 2⟩ ∧
    (⟨"x", "C", 2⟩ : Contribution) ≠ ⟨"x", "C", 1⟩ := by
  constructor
  · rfl
  · decide

/-- Claim C1, amended: for two extensions in point order `[A, B]` both
contributing a contribution with id `"x"`, the published
`contributions["x"]` after `_refresh_contributions` is B's contribution
object (the last extension in point order wins), and an error entry keyed
`"Duplicate x_0"` naming B's qualified id is recorded in the batched error
report (which is signalled). -/
theorem c1_amended_last_wins (qA qB : String) (tA tB : Nat) (hne : tA ≠ tB) :
    lookupD (refresh_contributions ["C"] defaultValidate (dupExtPair qA qB tA tB)
      ⟨[], []⟩).contributions "x" = some ⟨"x", "C", tB⟩ ∧
    lookupD (refresh_contributions ["C"] defaultValidate (dupExtPair qA qB tA tB)
      ⟨[], []⟩).tb (dupKey "x" 0) = some (dupMsg qB "x") ∧
    (refresh_contributions ["C"] defaultValidate (dupExtPair qA qB tA tB)
      ⟨[], []⟩).signaled = true := by
  simp [refresh_contributions, dupExtPair, buildExts, buildMapping, dictSetdefault,
    processContribs, load_contributions, factoryInvoked, hasKeyD, lookupD, extendEntry,
    dictInsert, defaultValidate, freshDupIdx, dupKey, Extension.mk.injEq,
    Contribution.mk.injEq, hne]

/-- Witness for `c1_amended_last_wins` at `qA := "a.ext"`, `qB := "b.ext"`,
`tA := 1`, `tB := 2`. -/
theorem c1_witness :
    lookupD (refresh_contributions ["C"] defaultValidate (dupExtPair "a.ext" "b.ext" 1 2)
      ⟨[], []⟩).contributions "x" = some ⟨"x", "C", 2⟩ ∧
    lookupD (refresh_contributions ["C"] defaultValidate (dupExtPair "a.ext" "b.ext" 1 2)
      ⟨[], []⟩).tb (dupKey "x" 0) = some (dupMsg "b.ext" "x") ∧
    (refresh_contributions ["C"] defaultValidate (dupExtPair "a.ext" "b.ext" 1 2)
      ⟨[], []⟩).signaled = true :=
  c1_amended_last_wins "a.ext" "b.ext" 1 2 (by decide)

/-- Claim C3: `BaseCollector.stop` calls `self.contributions.clear()`, an
in-place `dict.clear` on the published mapping object; a caller holding a
reference to that object (address 0) sees its contents change from
`[("x", ...)]` to the empty mapping, contradicting the claim (and the
member's own doc comment) that a published mapping is never mutated in
place. -/
theorem c3_stop_mutates_in_place :
    readContribDict (⟨[[("x", ⟨"x", "C", 1⟩)]], [[]]⟩ : DictHeap) 0 = [("x", ⟨"x", "C", 1⟩)] ∧
    (collector_stop ⟨[[("x", ⟨"x", "C", 1⟩)]], [[]]⟩ ⟨0, 0⟩).2.contributionsRef = 0 ∧
    readContribDict (collector_stop ⟨[[("x", ⟨"x", "C", 1⟩)]], [[]]⟩ ⟨0, 0⟩).1 0 = [] := by
  refine ⟨rfl, rfl, rfl⟩

/-- Claim C8, counterexample: for a contribution id absent from the
published mapping, `contributed_by` raises `KeyError`
(`self.contributions[contrib_id]`) instead of returning a nothing-found
result as the claim states. -/
theorem c8_counterexample :
    contributed_by ⟨[], []⟩ "unknown" = .error ("KeyError: " ++ "unknown") := by
  rfl

theorem findContributor_first (pre post : List (Extension × List Contribution))
    (ext : Extension) (cs : List Contribution) (c : Contribution)
    (hmem : c ∈ cs) (hpre : ∀ p ∈ pre, c ∉ p.2) :
    findContributor (pre ++ (ext, cs) :: post) c = some ext := by
  induction pre with
  | nil => simp [findContributor, hmem]
  | cons p rest ih =>
    have hp : c ∉ p.2 := hpre p (by simp)
    simp only [List.cons_append, findContributor, if_neg hp]
    exact ih (fun q hq => hpre q (by simp [hq]))

/-- Claim C8, amended: for an id absent from the published mapping
`contributed_by` raises `KeyError`; for a present id mapped to contribution
`c`, it returns the first tracked extension whose loaded contribution list
contains `c`. -/
theorem c8_amended_lookup :
    (∀ (st : ExtState) (cid : String), lookupD st.contributions cid = none →
      contributed_by st cid = .error ("KeyError: " ++ cid)) ∧
    (∀ (st : ExtState) (cid : String) (c : Contribution)
      (pre post : List (Extension × List Contribution)) (ext : Extension)
      (cs : List Contribution),
      lookupD st.contributions cid = some c →
      st.extensions = pre ++ (ext, cs) :: post →
      c ∈ cs →
      (∀ p ∈ pre, c ∉ p.2) →
      contributed_by st cid = .ok (some ext)) := by
  constructor
  · intro st cid h
    simp [contributed_by, h]
  · intro st cid c pre post ext cs h hst hmem hpre
    simp only [contributed_by, h]
    rw [hst, findContributor_first pre post ext cs c hmem hpre]

/-- Witness for `c8_amended_lookup`: both conjuncts applied at concrete
states. -/
theorem c8_witness :
    contributed_by ⟨[], [(⟨"q", [], none⟩, [])]⟩ "x" = .error ("KeyError: " ++ "x") ∧
    contributed_by ⟨[("x", ⟨"x", "C", 1⟩)], [(⟨"q", [⟨"x", "C", 1⟩], none⟩, [⟨"x", "C", 1⟩])]⟩ "x"
      = .ok (some ⟨"q", [⟨"x", "C", 1⟩], none⟩) :=
  ⟨c8_amended_lookup.1 ⟨[], [(⟨"q", [], none⟩, [])]⟩ "x" rfl,
   c8_amended_lookup.2 ⟨[("x", ⟨"x", "C", 1⟩)], [(⟨"q", [⟨"x", "C", 1⟩], none⟩, [⟨"x", "C", 1⟩])]⟩
     "x" ⟨"x", "C", 1⟩ [] [] ⟨"q", [⟨"x", "C", 1⟩], none⟩ [⟨"x", "C", 1⟩]
     rfl rfl (by decide) (by simp)⟩

theorem count_childUnreg_map_childReg (l : List Nat) (c : Nat) :
    (l.map GEv.childReg).count (GEv.childUnreg c) = 0 := by
  induction l with
  | nil => rfl
  | cons x rest ih => simpa [List.count_cons] using ih

theorem count_childUnreg_map_childUnreg (l : List Nat) (c : Nat) :
    (l.map GEv.childUnreg).count (GEv.childUnreg c) = l.count c := by
  induction l with
  | nil => rfl
  | cons x rest ih =>
    by_cases h : x = c <;> simp [List.count_cons, h, ih]

/-- Invariant bounding the child unregister calls a `GroupDeclarator` emits:
over any call sequence, each child receives at most one `unregister` per
completed `register` (plus one pending `unregister` when the flag is already
set at the start). -/
theorem runGroupOps_unreg_bound (ops : List GOp) (g : GroupDecl)
    (tb : List (String × String)) (c : Nat) :
    (runGroupOps g tb ops).2.2.count (GEv.childUnreg c) ≤
      completedRegs g ops * g.children.count c +
      (if g.is_registered then g.children.count c else 0) := by
  induction ops generalizing g tb with
  | nil => simp [runGroupOps]
  | cons op rest ih =>
    obtain ⟨flag, pth, grp, ch⟩ := g
    cases op with
    | reg =>
      by_cases hp : pathValid pth
      · have ihg := ih ⟨true, pth, grp, ch⟩ tb
        simp [runGroupOps, group_register, completedRegs, hp, List.count_append,
          count_childUnreg_map_childReg, List.count_cons, Nat.succ_mul] at ihg ⊢
        cases flag <;> simp <;> omega
      · have ihg := ih ⟨flag, pth, grp, ch⟩
          (dictInsert tb ("Error " ++ toString tb.length) (invalidPathMsg ⟨flag, pth, grp, ch⟩))
        simp [runGroupOps, group_register, completedRegs, hp] at ihg ⊢
        exact ihg
    | unreg =>
      cases flag with
      | true =>
        have ihg := ih ⟨false, pth, grp, ch⟩ tb
        simp [runGroupOps, group_unregister, completedRegs, List.count_append,
          count_childUnreg_map_childUnreg, List.count_cons] at ihg ⊢
        by_cases hp : pathValid pth <;> simp [hp] at ihg ⊢ <;> omega
      | false =>
        have ihg := ih ⟨false, pth, grp, ch⟩ tb
        simp [runGroupOps, group_unregister, completedRegs, List.count_cons] at ihg ⊢
        exact ihg

/-- Claim C10: `GroupDeclarator.unregister` propagates to the children only
when `is_registered` is set; an `unregister` always leaves the flag clear, so
on an unregistered group it is a complete no-op, and across any call
sequence starting from an unregistered group each child receives at most one
`unregister` per completed `register`. -/
theorem c10_unregister_per_completed_register (g : GroupDecl)
    (tb : List (String × String)) (ops : List GOp) (c : Nat)
    (h0 : g.is_registered = false) :
    group_unregister g = (g, []) ∧
    (∀ g2 : GroupDecl, (group_unregister g2).1.is_registered = false) ∧
    (runGroupOps g tb ops).2.2.count (GEv.childUnreg c) ≤
      completedRegs g ops * g.children.count c := by
  refine ⟨by simp [group_unregister, h0], ?_, ?_⟩
  · intro g2
    by_cases h : g2.is_registered <;> simp [group_unregister, h]
  · have := runGroupOps_unreg_bound ops g tb c
    simpa [h0] using this

/-- Witness for `c10_unregister_per_completed_register`: a two-child group
driven through register, unregister, unregister, register, unregister. -/
theorem c10_witness :
    group_unregister ⟨false, "a.b", "grp", [7, 8]⟩ = (⟨false, "a.b", "grp", [7, 8]⟩, []) ∧
    (∀ g2 : GroupDecl, (group_unregister g2).1.is_registered = false) ∧
    (runGroupOps ⟨false, "a.b", "grp", [7, 8]⟩ []
      [GOp.reg, GOp.unreg, GOp.unreg, GOp.reg, GOp.unreg]).2.2.count (GEv.childUnreg 7) ≤
      completedRegs ⟨false, "a.b", "grp", [7, 8]⟩
        [GOp.reg, GOp.unreg, GOp.unreg, GOp.reg, GOp.unreg] *
        ([7, 8].count 7) :=
  c10_unregister_per_completed_register ⟨false, "a.b", "grp", [7, 8]⟩ []
    [GOp.reg, GOp.unreg, GOp.unreg, GOp.reg, GOp.unreg] 7 rfl

theorem prefs_cons (n : String) (v : PrefVal) (rest : PrefObj) :
    preferences_from_members (.cons n v rest) =
      .cons n (saveVal v) (preferences_from_members rest) := by
  cases v <;> rfl

theorem prefLookup_prefs (n : String) :
    ∀ o : PrefObj, prefLookup n (preferences_from_members o) = (prefLookup n o).map saveVal
  | .nil => rfl
  | .cons n2 v rest => by
    rw [prefs_cons]
    by_cases h : n2 = n <;> simp [prefLookup, h, prefLookup_prefs n rest]

theorem prefLookup_some_mem (n : String) :
    ∀ (o : PrefObj) (v : PrefVal), prefLookup n o = some v → n ∈ prefNames o
  | .nil, v, h => by simp [prefLookup] at h
  | .cons n2 v2 rest, v, h => by
    by_cases he : n2 = n
    · simp [prefNames, he]
    · simp only [prefLookup, if_neg he] at h
      simp only [prefNames, List.mem_cons]
      exact Or.inr (prefLookup_some_mem n rest v h)

/-- Round-trip core: updating a well-formed object from a parameter document
holding the saved value of each of its members restores the object. -/
theorem roundtrip_go : ∀ (sub params : PrefObj), wfObj sub = true →
    (∀ (n : String) (v : PrefVal), prefLookup n sub = some v →
      prefLookup n params = some (saveVal v)) →
    update_members_from_preferences sub params = .ok sub
  | .nil, _, _, _ => rfl
  | .cons n v rest, params, hwf, hp => by
    simp only [wfObj, Bool.and_eq_true] at hwf
    obtain ⟨⟨hn, hv⟩, hr⟩ := hwf
    have hlook : prefLookup n params = some (saveVal v) := hp n v (by simp [prefLookup])
    have hrest : ∀ (n2 : String) (v2 : PrefVal), prefLookup n2 rest = some v2 →
        prefLookup n2 params = some (saveVal v2) := by
      intro n2 v2 h2
      apply hp
      have hne : ¬ n = n2 := by
        intro he
        subst he
        have := prefLookup_some_mem n rest v2 h2
        simp at hn
        exact hn this
      simp [prefLookup, hne, h2]
    have hrec := roundtrip_go rest params hr hrest
    cases v with
    | vobj o2 =>
      have ho2 : wfObj o2 = true := by simpa [wfVal] using hv
      have hrec2 := roundtrip_go o2 (preferences_from_members o2) ho2
        (fun n2 v2 h2 => by rw [prefLookup_prefs]; simp [h2])
      simp only [update_members_from_preferences, hlook, saveVal]
      rw [hrec2, hrec]
      rfl
    | vstr s =>
      simp only [update_members_from_preferences, hlook, saveVal, member_to_pref,
        member_from_pref]
      rw [hrec]
      rfl
    | vfloat f =>
      simp only [update_members_from_preferences, hlook, saveVal, member_to_pref,
        member_from_pref]
      rw [hrec]
      rfl
    | venum i =>
      simp only [update_members_from_preferences, hlook, saveVal, member_to_pref,
        member_from_pref]
      rw [hrec]
      rfl
    | vlist xs =>
      simp only [update_members_from_preferences, hlook, saveVal, member_to_pref,
        member_from_pref]
      rw [hrec]
      rfl

/-- Claim C9: for a structured object whose members are tagged `pref=true`
and hold values of the supported kinds (string, float, enum, list of
primitives, nested object), applying `update_members_from_preferences` to
the document produced by `preferences_from_members` restores the object
(member names are unique, as `atom` guarantees). -/
theorem c9_preference_roundtrip (o : PrefObj) (h : wfObj o = true) :
    update_members_from_preferences o (preferences_from_members o) = .ok o :=
  roundtrip_go o (preferences_from_members o) h
    (fun n v hv => by rw [prefLookup_prefs]; simp [hv])

/-- Witness for `c9_preference_roundtrip` at `c9Obj`. -/
theorem c9_witness :
    wfObj c9Obj = true ∧
    update_members_from_preferences c9Obj (preferences_from_members c9Obj) = .ok c9Obj :=
  ⟨by decide, c9_preference_roundtrip c9Obj (by decide)⟩

/-- Claim C6 (code bug): calling `_register_decls` on a batch containing an
already-tracked extension does not leave it untouched. The loop variable
`declarators` is only assigned in the `extension not in old_extensions`
branch, so for the batch `[newExt, trackedExt]` the stale value (`newExt`'s
declarators) is reused for `trackedExt`: `newDecl` is registered twice (once
under each extension) and `trackedExt`'s tracking entry is overwritten with
`[newDecl]`; with the tracked extension first in the batch the call raises
`NameError`. -/
theorem c6_stale_declarators_bug :
    register_decls behNop ["C"] [newExt, trackedExt] c6State =
      .ok { state := { contributions := [],
                       extensions := [(trackedExt, [newDecl]), (newExt, [newDecl])],
                       delayed := [] },
            tb := [],
            trace := [Ev.load "qN", Ev.reg 5, Ev.reg 5],
            drainExited := true,
            renotified := false,
            signaled := false } ∧
    register_decls behNop ["C"] [trackedExt] c6State =
      .error "NameError: name declarators is not defined" := by
  constructor
  · rfl
  · rfl

theorem unregList_trace_unreg (ubeh : UnregBeh) :
    ∀ (ds : List Decl) (s : List (String × Nat)), ∀ e ∈ (unregList ubeh ds s).2,
      ∃ d, e = Ev.unreg d
  | [], _, e, he => by simp [unregList] at he
  | d :: ds, s, e, he => by
    simp only [unregList, List.mem_cons] at he
    rcases he with he | he
    · exact ⟨d.did, he⟩
    · exact unregList_trace_unreg ubeh ds (ubeh d s) e he

theorem unregister_decls_trace_unreg (ubeh : UnregBeh) :
    ∀ (rm : List (DExt × List Decl)) (st : DCState), ∀ e ∈ (unregister_decls ubeh rm st).2,
      ∃ d, e = Ev.unreg d
  | [], _, e, he => by simp [unregister_decls] at he
  | p :: rest, st, e, he => by
    simp only [unregister_decls, List.mem_append] at he
    rcases he with he | he
    · exact unregList_trace_unreg ubeh p.2 st.contributions e he
    · exact unregister_decls_trace_unreg ubeh rest _ e he

theorem regList_trace_reg (beh : DeclBeh) :
    ∀ (ds : List Decl) (s : RegSt), ∀ e ∈ (regList beh ds s).2, ∃ d, e = Ev.reg d
  | [], _, e, he => by simp [regList] at he
  | d :: ds, s, e, he => by
    simp only [regList, List.mem_cons] at he
    rcases he with he | he
    · exact ⟨d.did, he⟩
    · exact regList_trace_reg beh ds (beh d s) e he

theorem regAll_trace_reg (beh : DeclBeh) :
    ∀ (ne : List (DExt × List Decl)) (s : RegSt), ∀ e ∈ (regAll beh ne s).2, ∃ d, e = Ev.reg d
  | [], _, e, he => by simp [regAll] at he
  | p :: rest, s, e, he => by
    simp only [regAll, List.mem_append] at he
    rcases he with he | he
    · exact regList_trace_reg beh p.2 s e he
    · exact regAll_trace_reg beh rest _ e he

theorem drainDelayed_trace_reg (beh : DeclBeh) :
    ∀ (fuel old : Nat) (s : RegSt), ∀ e ∈ (drainDelayed beh fuel old s).2.1, ∃ d, e = Ev.reg d
  | 0, _, _, e, he => by simp [drainDelayed] at he
  | fuel + 1, old, s, e, he => by
    simp only [drainDelayed] at he
    split at he
    · simp only [List.mem_append] at he
      rcases he with he | he
      · exact regList_trace_reg beh s.delayed _ e he
      · exact drainDelayed_trace_reg beh fuel s.delayed.length _ e he
    · simp at he

theorem declPhase1_trace_load (extClass : List String) (old : List (DExt × List Decl)) :
    ∀ (exts : List DExt) (last : Option (List Decl)) (ne : List (DExt × List Decl))
      (tb : List (String × String)) (r : List (DExt × List Decl) × List (String × String) × List Ev),
      declPhase1 extClass old exts last ne tb = .ok r →
      ∀ e ∈ r.2.2, ∃ q, e = Ev.load q
  | [], _, ne, tb, r, hr, e, he => by
    simp only [declPhase1] at hr
    cases hr
    simp at he
  | x :: exts, last, ne, tb, r, hr, e, he => by
    simp only [declPhase1] at hr
    split at hr
    · cases hl : last with
      | none => rw [hl] at hr; exact absurd hr (by simp)
      | some ds =>
        rw [hl] at hr
        exact declPhase1_trace_load extClass old exts (some ds) (extendEntry ne x ds) tb r hr e he
    · cases hg : get_decls extClass x with
      | error m =>
        simp only [hg] at hr
        cases hp : declPhase1 extClass old exts last ne
            (dictInsert tb ("Extension " ++ x.qualified_id) m) with
        | error e2 => rw [hp] at hr; exact absurd hr (by simp [Except.map])
        | ok r2 =>
          rw [hp] at hr
          simp only [Except.map] at hr
          cases hr
          simp only [List.mem_cons] at he
          rcases he with he | he
          · exact ⟨x.qualified_id, he⟩
          · exact declPhase1_trace_load extClass old exts last ne _ r2 hp e he
      | ok ds =>
        simp only [hg] at hr
        cases hp : declPhase1 extClass old exts (some ds) (extendEntry ne x ds) tb with
        | error e2 => rw [hp] at hr; exact absurd hr (by simp [Except.map])
        | ok r2 =>
          rw [hp] at hr
          simp only [Except.map] at hr
          cases hr
          simp only [List.mem_cons] at he
          rcases he with he | he
          · exact ⟨x.qualified_id, he⟩
          · exact declPhase1_trace_load extClass old exts (some ds) _ tb r2 hp e he

/-- No `unregister` event ever appears in the trace of `_register_decls`. -/
theorem register_decls_no_unreg (beh : DeclBeh) (extClass : List String)
    (exts : List DExt) (st : DCState) (out : RDOut)
    (h : register_decls beh extClass exts st = .ok out) :
    ∀ e ∈ out.trace, ∀ d, e ≠ Ev.unreg d := by
  intro e he d
  simp only [register_decls] at h
  cases hp : declPhase1 extClass st.extensions exts none [] [] with
  | error e2 => rw [hp] at h; exact absurd h (by simp)
  | ok r =>
    rw [hp] at h
    obtain ⟨ne, tb1, tr1⟩ := r
    simp only at h
    cases h
    simp only [List.mem_append] at he
    rcases he with (he | he) | he
    · obtain ⟨q, hq⟩ := declPhase1_trace_load extClass st.extensions exts none [] [] _ hp e he
      simp [hq]
    · obtain ⟨d2, hd⟩ := regAll_trace_reg beh ne _ e he
      simp [hd]
    · obtain ⟨d2, hd⟩ := drainDelayed_trace_reg beh _ _ _ e he
      simp [hd]

/-- Claim C4: for a change notification with a non-empty new extension set,
every `unregister` call on a removed extension's declarators happens before
any `register` call (the trace splits into an unregister-only prefix and an
unregister-free suffix); for an empty new extension set the collector
hard-resets instead: published contributions become the empty mapping and
the extension tracking is cleared, with no declarator calls at all. -/
theorem c4_unregister_precedes_register (beh : DeclBeh) (ubeh : UnregBeh)
    (extClass : List String) (oldExts newExts : List DExt) (st : DCState) :
    (newExts = [] → on_contribs_updated beh ubeh extClass oldExts newExts st =
      .ok { state := { contributions := [], extensions := [], delayed := st.delayed },
            trace := [] }) ∧
    (∀ out : UpdOut, newExts ≠ [] →
      on_contribs_updated beh ubeh extClass oldExts newExts st = .ok out →
      ∃ t1 t2, out.trace = t1 ++ t2 ∧
        (∀ e ∈ t1, ∃ d, e = Ev.unreg d) ∧
        (∀ e ∈ t2, ∀ d, e ≠ Ev.unreg d)) := by
  constructor
  · intro hempty
    subst hempty
    simp [on_contribs_updated]
  · intro out hne hok
    simp only [on_contribs_updated, List.isEmpty_eq_true] at hok
    rw [if_neg hne] at hok
    set rm := st.extensions.filter
      (fun p => oldExts.contains p.1 && !(newExts.contains p.1)) with hrm
    set added := newExts.filter (fun e => !(oldExts.contains e)) with hadd
    cases hreg : register_decls beh extClass added (unregister_decls ubeh rm st).1 with
    | error e2 => rw [hreg] at hok; exact absurd hok (by simp [Except.map])
    | ok r =>
      rw [hreg] at hok
      simp only [Except.map] at hok
      cases hok
      refine ⟨(unregister_decls ubeh rm st).2, r.trace, rfl, ?_, ?_⟩
      · exact unregister_decls_trace_unreg ubeh rm st
      · exact register_decls_no_unreg beh extClass added _ r hreg

/-- Witness for `c4_unregister_precedes_register`: a batch removing
`trackedExt` and adding `newExt`, and the empty-set hard reset, both at
concrete inputs. -/
theorem c4_witness :
    (on_contribs_updated behNop (fun _ c => c) ["C"] [trackedExt] []
      ⟨[("t", 1)], [(trackedExt, [trackedDecl])], []⟩ =
      .ok { state := { contributions := [], extensions := [], delayed := [] }, trace := [] }) ∧
    (∃ t1 t2,
      ({ state := { contributions := [("t", 1)],
                    extensions := [(newExt, [newDecl])], delayed := [] },
         trace := [Ev.unreg 1, Ev.load "qN", Ev.reg 5] } : UpdOut).trace = t1 ++ t2 ∧
      (∀ e ∈ t1, ∃ d, e = Ev.unreg d) ∧
      (∀ e ∈ t2, ∀ d, e ≠ Ev.unreg d)) :=
  ⟨(c4_unregister_precedes_register behNop (fun _ c => c) ["C"] [trackedExt] []
      ⟨[("t", 1)], [(trackedExt, [trackedDecl])], []⟩).1 rfl,
   (c4_unregister_precedes_register behNop (fun _ c => c) ["C"] [trackedExt] [newExt]
      ⟨[("t", 1)], [(trackedExt, [trackedDecl])], []⟩).2
     { state := { contributions := [("t", 1)],
                  extensions := [(newExt, [newDecl])], delayed := [] },
       trace := [Ev.unreg 1, Ev.load "qN", Ev.reg 5] }
     (by simp) rfl⟩

theorem regList_behGrow_delayed_length :
    ∀ (ds : List Decl) (s : RegSt),
      (regList behGrow ds s).1.delayed.length = s.delayed.length + 2 * ds.length
  | [], s => by simp [regList]
  | d :: ds, s => by
    have ih := regList_behGrow_delayed_length ds (behGrow d s)
    simp only [regList]
    rw [ih]
    simp [behGrow]
    omega

theorem drainDelayed_behGrow_false :
    ∀ (fuel old : Nat) (s : RegSt), old ≠ s.delayed.length → s.delayed ≠ [] →
      (drainDelayed behGrow fuel old s).2.2 = false
  | 0, _, _, _, _ => rfl
  | fuel + 1, old, s, h1, h2 => by
    have hlen : s.delayed.length ≠ 0 := by simpa using h2
    have hpass : (regList behGrow s.delayed { s with delayed := [] }).1.delayed.length =
        2 * s.delayed.length := by
      rw [regList_behGrow_delayed_length]
      simp
    have hne2 : s.delayed.length ≠
        (regList behGrow s.delayed { s with delayed := [] }).1.delayed.length := by
      rw [hpass]
      omega
    have hnil2 : (regList behGrow s.delayed { s with delayed := [] }).1.delayed ≠ [] := by
      intro hnil
      have h0 : (2 : Nat) * s.delayed.length = 0 := by
        rw [← hpass, hnil]
        rfl
      omega
    simp only [drainDelayed, if_pos (And.intro h1 h2)]
    exact drainDelayed_behGrow_false fuel s.delayed.length
      (regList behGrow s.delayed { s with delayed := [] }).1 hne2 hnil2

/-- Claim C5, counterexample: for a declarator behaviour whose `register`
grows the pending list on every call, the retry drain loop of
`_register_decls` never exits — the loop condition
`old != len(self._delayed) and self._delayed` stays true forever, so the
claim that the loop terminates whatever the declarators' behaviour is false. -/
theorem c5_counterexample : drainDiverges behGrow 0 ⟨[], [⟨0, "C"⟩], []⟩ :=
  fun fuel => drainDelayed_behGrow_false fuel 0 ⟨[], [⟨0, "C"⟩], []⟩ (by simp) (by simp)

theorem regList_delayed_length_le (beh : DeclBeh) (hbeh : DefersSelfOnly beh) :
    ∀ (ds : List Decl) (s : RegSt),
      (regList beh ds s).1.delayed.length ≤ s.delayed.length + ds.length
  | [], s => by simp [regList]
  | d :: ds, s => by
    have ih := regList_delayed_length_le beh hbeh ds (beh d s)
    simp only [regList]
    rcases hbeh d s with hd | hd
    · rw [hd] at ih
      simpa using Nat.le_trans ih (by omega)
    · rw [hd] at ih
      simp only [List.length_append, List.length_cons, List.length_nil] at ih ⊢
      omega

theorem drainDelayed_exits_of_eq (beh : DeclBeh) (fuel old : Nat) (s : RegSt)
    (h : old = s.delayed.length) (hf : 1 ≤ fuel) :
    (drainDelayed beh fuel old s).2.2 = true := by
  match fuel, hf with
  | fuel + 1, _ =>
    simp only [drainDelayed]
    rw [if_neg (fun hc => hc.1 h)]

theorem drainDelayed_exits (beh : DeclBeh) (hbeh : DefersSelfOnly beh) :
    ∀ (fuel old : Nat) (s : RegSt), s.delayed.length + 1 ≤ fuel →
      (drainDelayed beh fuel old s).2.2 = true
  | 0, _, _, hf => by omega
  | fuel + 1, old, s, hf => by
    by_cases hc : old ≠ s.delayed.length ∧ s.delayed ≠ []
    · have hnil : s.delayed.length ≠ 0 := by simpa using hc.2
      have hlen : (regList beh s.delayed { s with delayed := [] }).1.delayed.length ≤
          s.delayed.length := by
        have := regList_delayed_length_le beh hbeh s.delayed { s with delayed := [] }
        simpa using this
      simp only [drainDelayed, if_pos hc]
      by_cases heq : (regList beh s.delayed { s with delayed := [] }).1.delayed.length =
          s.delayed.length
      · exact drainDelayed_exits_of_eq beh fuel s.delayed.length _ heq.symm (by omega)
      · exact drainDelayed_exits beh hbeh fuel s.delayed.length _ (by omega)
    · simp only [drainDelayed, if_neg hc]

/-- Claim C5, amended: the drain loop's exit condition is a pass leaving the
pending list's length unchanged (or the list empty); under the deferral
contract — each deferred declarator re-adds only itself, so a pass never
grows the pending list — the loop terminates (the `length + 1` loop
iterations of the model are never exhausted), and upon exit any declarators
still pending are reported under the single `"Missing declarations"` key,
naming the stuck set. Without that contract the loop can run forever
(`c5_counterexample`). -/
theorem c5_amended_drain_terminates (beh : DeclBeh) (extClass : List String)
    (exts : List DExt) (st : DCState) (out : RDOut)
    (hbeh : DefersSelfOnly beh)
    (h : register_decls beh extClass exts st = .ok out) :
    out.drainExited = true ∧
    (out.state.delayed ≠ [] →
      lookupD out.tb "Missing declarations" = some (missingMsg out.state.delayed)) := by
  simp only [register_decls] at h
  cases hp : declPhase1 extClass st.extensions exts none [] [] with
  | error e2 => rw [hp] at h; exact absurd h (by simp)
  | ok r =>
    rw [hp] at h
    obtain ⟨ne, tb1, tr1⟩ := r
    simp only at h
    cases h
    constructor
    · exact drainDelayed_exits beh hbeh _ 0 _ (by omega)
    · intro hne
      simp only at hne ⊢
      rw [if_pos hne]
      exact lookupD_dictInsert_self _ _ _

/-- Witness for `c5_amended_drain_terminates`: the self-deferring behaviour
on one extension; the stuck declarator is reported. -/
theorem c5_witness :
    c5Out.drainExited = true ∧
    (c5Out.state.delayed ≠ [] →
      lookupD c5Out.tb "Missing declarations" = some (missingMsg c5Out.state.delayed)) :=
  c5_amended_drain_terminates behDeferSelf ["C"] [newExt] ⟨[], [], []⟩ c5Out
    (fun d s => Or.inr rfl) (by rfl)

theorem lookupD_extendEntry_self {κ α : Type} [DecidableEq κ] (d : List (κ × List α)) (k : κ)
    (vs : List α) : lookupD (extendEntry d k vs) k = some (((lookupD d k).getD []) ++ vs) := by
  induction d with
  | nil => simp [extendEntry, lookupD]
  | cons p rest ih =>
    by_cases h : p.1 = k
    · simp [extendEntry, lookupD, h]
    · simp [extendEntry, lookupD, h, ih]

theorem lookupD_extendEntry_ne {κ α : Type} [DecidableEq κ] (d : List (κ × List α)) (k k2 : κ)
    (vs : List α) (h : k ≠ k2) : lookupD (extendEntry d k vs) k2 = lookupD d k2 := by
  induction d with
  | nil => simp [extendEntry, lookupD, h]
  | cons p rest ih =>
    by_cases hp : p.1 = k
    · simp [extendEntry, lookupD, hp, h]
    · simp only [extendEntry, if_neg hp, lookupD]
      by_cases hp2 : p.1 = k2 <;> simp [hp2, ih]

theorem hasKeyD_extendEntry_of {κ α : Type} [DecidableEq κ] (d : List (κ × List α)) (k k2 : κ)
    (vs : List α) (h : hasKeyD d k2 = true) : hasKeyD (extendEntry d k vs) k2 = true := by
  by_cases hk : k = k2
  · subst hk
    simp [hasKeyD, lookupD_extendEntry_self]
  · simpa [hasKeyD, lookupD_extendEntry_ne d k k2 vs hk] using h

theorem buildExts_key_mono (extClass : List String) (old : List (Extension × List Contribution))
    (k : Extension) :
    ∀ (exts : List Extension) (acc : BuildAcc), hasKeyD acc.newExts k = true →
      hasKeyD (buildExts extClass old exts acc).newExts k = true
  | [], acc, h => h
  | e :: rest, acc, h => by
    simp only [buildExts]
    split
    · exact buildExts_key_mono extClass old k rest _ (hasKeyD_extendEntry_of _ _ _ _ h)
    · cases hl : load_contributions extClass e with
      | error m => exact buildExts_key_mono extClass old k rest _ h
      | ok cs => exact buildExts_key_mono extClass old k rest _ (hasKeyD_extendEntry_of _ _ _ _ h)

theorem buildExts_key_of_mem (extClass : List String) (old : List (Extension × List Contribution))
    (k : Extension) :
    ∀ (exts : List Extension) (acc : BuildAcc), k ∈ exts →
      (hasKeyD old k = true ∨ (load_contributions extClass k).isOk = true) →
      hasKeyD (buildExts extClass old exts acc).newExts k = true
  | [], _, hmem, _ => by simp at hmem
  | e :: rest, acc, hmem, hok => by
    rcases List.mem_cons.mp hmem with he | he
    · subst he
      simp only [buildExts]
      split
      · refine buildExts_key_mono extClass old k rest _ ?_
        simp [hasKeyD, lookupD_extendEntry_self]
      · rcases hok with hok | hok
        · simp_all
        · cases hl : load_contributions extClass k with
          | error m => rw [hl] at hok; simp [Except.isOk, Except.toBool] at hok
          | ok cs =>
            refine buildExts_key_mono extClass old k rest _ ?_
            simp [hasKeyD, lookupD_extendEntry_self]
    · simp only [buildExts]
      split
      · exact buildExts_key_of_mem extClass old k rest _ he hok
      · cases hl : load_contributions extClass e with
        | error m => exact buildExts_key_of_mem extClass old k rest _ he hok
        | ok cs => exact buildExts_key_of_mem extClass old k rest _ he hok

theorem buildExts_lookup_notmem (extClass : List String)
    (old : List (Extension × List Contribution)) (k : Extension) :
    ∀ (exts : List Extension) (acc : BuildAcc), (∀ e2 ∈ exts, e2 ≠ k) →
      lookupD (buildExts extClass old exts acc).newExts k = lookupD acc.newExts k
  | [], _, _ => rfl
  | e :: rest, acc, hne => by
    have hek : e ≠ k := hne e (by simp)
    have hrest : ∀ e2 ∈ rest, e2 ≠ k := fun e2 h2 => hne e2 (by simp [h2])
    simp only [buildExts]
    split
    · rw [buildExts_lookup_notmem extClass old k rest _ hrest]
      exact lookupD_extendEntry_ne _ _ _ _ hek
    · cases hl : load_contributions extClass e with
      | error m => exact buildExts_lookup_notmem extClass old k rest _ hrest
      | ok cs =>
        rw [buildExts_lookup_notmem extClass old k rest _ hrest]
        exact lookupD_extendEntry_ne _ _ _ _ hek

theorem buildExts_fcalls_cached (extClass : List String)
    (old : List (Extension × List Contribution)) :
    ∀ (exts : List Extension) (acc : BuildAcc), (∀ e ∈ exts, hasKeyD old e = true) →
      (buildExts extClass old exts acc).fcalls = acc.fcalls
  | [], _, _ => rfl
  | e :: rest, acc, hc => by
    have he : hasKeyD old e = true := hc e (by simp)
    have hrest : ∀ e2 ∈ rest, hasKeyD old e2 = true := fun e2 h2 => hc e2 (by simp [h2])
    simp only [buildExts, if_pos he]
    exact buildExts_fcalls_cached extClass old rest _ hrest

theorem buildExts_lookup_cached (extClass : List String)
    (old : List (Extension × List Contribution)) (k : Extension) :
    ∀ (exts : List Extension) (acc : BuildAcc), exts.Nodup →
      (∀ e2 ∈ exts, hasKeyD old e2 = true) → k ∈ exts → hasKeyD acc.newExts k = false →
      lookupD (buildExts extClass old exts acc).newExts k = some ((lookupD old k).getD [])
  | [], _, _, _, hmem, _ => by simp at hmem
  | e :: rest, acc, hnd, hc, hmem, hacc => by
    have hrest : ∀ e2 ∈ rest, hasKeyD old e2 = true := fun e2 h2 => hc e2 (by simp [h2])
    rcases List.mem_cons.mp hmem with he | he
    · subst he
      have hknotrest : ∀ e2 ∈ rest, e2 ≠ k := by
        intro e2 h2 hek
        subst hek
        exact (List.nodup_cons.mp hnd).1 h2
      simp only [buildExts, if_pos (hc k (by simp))]
      rw [buildExts_lookup_notmem extClass old k rest _ hknotrest]
      rw [lookupD_extendEntry_self]
      have : lookupD acc.newExts k = none := by
        simpa [hasKeyD, Option.isSome_iff_exists] using hacc
      simp [this]
    · have hek : e ≠ k := by
        intro hek
        subst hek
        exact (List.nodup_cons.mp hnd).1 he
      simp only [buildExts, if_pos (hc e (by simp))]
      refine buildExts_lookup_cached extClass old k rest _ (List.nodup_cons.mp hnd).2 hrest he ?_
      rw [hasKeyD, lookupD_extendEntry_ne _ _ _ _ hek]
      exact hacc

theorem lookupD_append {κ α : Type} [DecidableEq κ] (d1 d2 : List (κ × α)) (k : κ) :
    lookupD (d1 ++ d2) k =
      match lookupD d1 k with
      | some v => some v
      | none => lookupD d2 k := by
  induction d1 with
  | nil => rfl
  | cons p rest ih =>
    by_cases h : p.1 = k <;> simp [lookupD, h, ih]

theorem dictSetdefault_snd (ne : List (Extension × List Contribution)) (e : Extension) :
    (dictSetdefault ne e).2 = (lookupD ne e).getD [] := by
  unfold dictSetdefault
  cases lookupD ne e <;> rfl

/-- The `defaultdict` subscript never changes the list any key denotes: a
present key keeps its list, a missing key goes from denoting the default
empty list to storing it. -/
theorem dictSetdefault_effList (ne : List (Extension × List Contribution)) (e k : Extension) :
    (lookupD (dictSetdefault ne e).1 k).getD [] = (lookupD ne k).getD [] := by
  unfold dictSetdefault
  cases he : lookupD ne e with
  | some cs => rfl
  | none =>
    rw [lookupD_append]
    cases hk : lookupD ne k with
    | some v => rfl
    | none =>
      by_cases hek : e = k <;> simp [lookupD, hek]

theorem dictSetdefault_hasKey_self (ne : List (Extension × List Contribution)) (e : Extension) :
    hasKeyD (dictSetdefault ne e).1 e = true := by
  unfold dictSetdefault
  cases he : lookupD ne e with
  | some cs => simp [hasKeyD, he]
  | none => simp [hasKeyD, lookupD_append, he, lookupD]

theorem dictSetdefault_hasKey_mono (ne : List (Extension × List Contribution)) (e k : Extension)
    (h : hasKeyD ne k = true) : hasKeyD (dictSetdefault ne e).1 k = true := by
  unfold dictSetdefault
  cases he : lookupD ne e with
  | some cs => exact h
  | none =>
    obtain ⟨v, hv⟩ := Option.isSome_iff_exists.mp h
    simp [hasKeyD, lookupD_append, hv]

/-- The second loop only inserts default empty entries, so the list any key
denotes (with the empty-list default) is unchanged by the whole loop. -/
theorem buildMapping_effList (validate : Contribution → Bool × String) :
    ∀ (exts : List Extension) (ne : List (Extension × List Contribution)) (acc : MapAcc)
      (k : Extension),
      (lookupD (buildMapping validate exts ne acc).1 k).getD [] = (lookupD ne k).getD []
  | [], _, _, _ => rfl
  | e :: rest, ne, acc, k => by
    simp only [buildMapping]
    rw [buildMapping_effList validate rest _ _ k]
    exact dictSetdefault_effList ne e k

theorem buildMapping_hasKey_mono (validate : Contribution → Bool × String) :
    ∀ (exts : List Extension) (ne : List (Extension × List Contribution)) (acc : MapAcc)
      (k : Extension), hasKeyD ne k = true →
      hasKeyD (buildMapping validate exts ne acc).1 k = true
  | [], _, _, _, h => h
  | e :: rest, ne, acc, k, h => by
    simp only [buildMapping]
    exact buildMapping_hasKey_mono validate rest _ _ k (dictSetdefault_hasKey_mono ne e k h)

/-- Every extension the second loop iterates ends up as a key of the stored
`new_extensions` dict — the `defaultdict` access guarantees it. -/
theorem buildMapping_hasKey_of_mem (validate : Contribution → Bool × String) :
    ∀ (exts : List Extension) (ne : List (Extension × List Contribution)) (acc : MapAcc)
      (e : Extension), e ∈ exts →
      hasKeyD (buildMapping validate exts ne acc).1 e = true
  | [], _, _, _, hmem => by simp at hmem
  | e2 :: rest, ne, acc, e, hmem => by
    rcases List.mem_cons.mp hmem with he | he
    · subst he
      simp only [buildMapping]
      exact buildMapping_hasKey_mono validate rest _ _ e (dictSetdefault_hasKey_self ne e)
    · simp only [buildMapping]
      exact buildMapping_hasKey_of_mem validate rest _ _ e he

/-- The `contribs` component built by the mapping loop does not depend on the
traceback accumulator (duplicate and validation recording only write `tb`). -/
theorem processContribs_contribs_tb_indep (validate : Contribution → Bool × String)
    (e : Extension) :
    ∀ (cs : List Contribution) (c0 : List (String × Contribution))
      (tb1 tb2 : List (String × String)),
      (processContribs validate e cs ⟨c0, tb1⟩).contribs =
        (processContribs validate e cs ⟨c0, tb2⟩).contribs
  | [], _, _, _ => rfl
  | c :: cs, c0, tb1, tb2 => by
    simp only [processContribs]
    cases validate c with
    | mk res msg =>
      cases res <;>
        exact processContribs_contribs_tb_indep validate e cs (dictInsert c0 c.id c) _ _

/-- The mapping the second loop builds depends on the threaded dict only
through the (defaulted) list each iterated extension denotes. -/
theorem buildMapping_contribs_congr (validate : Contribution → Bool × String) :
    ∀ (exts : List Extension) (ne1 ne2 : List (Extension × List Contribution))
      (c0 : List (String × Contribution)) (tb1 tb2 : List (String × String)),
      (∀ e ∈ exts, (lookupD ne1 e).getD [] = (lookupD ne2 e).getD []) →
      (buildMapping validate exts ne1 ⟨c0, tb1⟩).2.contribs =
        (buildMapping validate exts ne2 ⟨c0, tb2⟩).2.contribs
  | [], _, _, _, _, _, _ => rfl
  | e :: rest, ne1, ne2, c0, tb1, tb2, hl => by
    have hrest : ∀ e2 ∈ rest,
        (lookupD (dictSetdefault ne1 e).1 e2).getD [] =
          (lookupD (dictSetdefault ne2 e).1 e2).getD [] := by
      intro e2 h2
      rw [dictSetdefault_effList, dictSetdefault_effList]
      exact hl e2 (by simp [h2])
    simp only [buildMapping, dictSetdefault_snd]
    rw [hl e (by simp)]
    have hind := processContribs_contribs_tb_indep validate e ((lookupD ne2 e).getD []) c0 tb1 tb2
    calc (buildMapping validate rest (dictSetdefault ne1 e).1
            (processContribs validate e ((lookupD ne2 e).getD []) ⟨c0, tb1⟩)).2.contribs
        = (buildMapping validate rest (dictSetdefault ne2 e).1
            ⟨(processContribs validate e ((lookupD ne2 e).getD []) ⟨c0, tb1⟩).contribs,
              (processContribs validate e ((lookupD ne2 e).getD []) ⟨c0, tb2⟩).tb⟩).2.contribs :=
          buildMapping_contribs_congr validate rest _ _ _ _ _ hrest
      _ = (buildMapping validate rest (dictSetdefault ne2 e).1
            (processContribs validate e ((lookupD ne2 e).getD []) ⟨c0, tb2⟩)).2.contribs := by
          rw [hind]

/-- Every refresh performs exactly one assignment to `contributions`. -/
theorem refresh_publishes_once (extClass : List String)
    (validate : Contribution → Bool × String) (pointExts : List Extension) (st : ExtState) :
    (refresh_contributions extClass validate pointExts st).publishes = 1 := by
  simp only [refresh_contributions]
  split <;> rfl

/-- Claim C7: calling `_refresh_contributions` twice with no intervening
change to the extension point yields a contributions mapping equal in
content to the first. Cached per-extension contribution lists are reused and
user factories are not re-invoked — the second refresh performs zero factory
invocations, including for an extension whose load raised `TypeError`, which
the second loop's `defaultdict` access cached under an empty list — and each
of the two refreshes performs exactly one unconditional publish of the
mapping. The point's extension list holds distinct objects (`hnd`), as an
extension point guarantees. -/
theorem c7_idempotent_refresh (extClass : List String)
    (validate : Contribution → Bool × String) (exts : List Extension) (st : ExtState)
    (hnd : exts.Nodup) :
    (refresh_contributions extClass validate exts
        (refreshState (refresh_contributions extClass validate exts st))).contributions =
      (refresh_contributions extClass validate exts st).contributions ∧
    (refresh_contributions extClass validate exts
        (refreshState (refresh_contributions extClass validate exts st))).factoryCalls = 0 ∧
    (refresh_contributions extClass validate exts st).publishes = 1 ∧
    (refresh_contributions extClass validate exts
        (refreshState (refresh_contributions extClass validate exts st))).publishes = 1 := by
  have key1 : ∀ e ∈ exts,
      hasKeyD (buildMapping validate exts
        (buildExts extClass st.extensions exts ⟨[], [], 0⟩).newExts
        ⟨[], (buildExts extClass st.extensions exts ⟨[], [], 0⟩).tb⟩).1 e = true :=
    fun e he => buildMapping_hasKey_of_mem validate exts _ _ e he
  refine ⟨?_, ?_, refresh_publishes_once _ _ _ _, refresh_publishes_once _ _ _ _⟩
  · by_cases hemp : exts.isEmpty
    · simp [refresh_contributions, hemp, refreshState]
    · have effLists : ∀ e ∈ exts,
          (lookupD (buildExts extClass
              (buildMapping validate exts
                (buildExts extClass st.extensions exts ⟨[], [], 0⟩).newExts
                ⟨[], (buildExts extClass st.extensions exts ⟨[], [], 0⟩).tb⟩).1 exts
              ⟨[], [], 0⟩).newExts e).getD [] =
            (lookupD (buildExts extClass st.extensions exts ⟨[], [], 0⟩).newExts e).getD [] := by
        intro e he
        rw [buildExts_lookup_cached extClass _ e exts ⟨[], [], 0⟩ hnd key1 he rfl]
        simp only [Option.getD_some]
        exact buildMapping_effList validate exts _ _ e
      have hemp2 : exts.isEmpty = false := by simpa using hemp
      simp only [refresh_contributions, hemp2, Bool.false_eq_true, if_false, refreshState]
      exact buildMapping_contribs_congr validate exts _ _ [] _ _ effLists
  · by_cases hemp : exts.isEmpty
    · simp [refresh_contributions, hemp, refreshState]
    · have hemp2 : exts.isEmpty = false := by simpa using hemp
      simp only [refresh_contributions, hemp2, Bool.false_eq_true, if_false, refreshState]
      exact buildExts_fcalls_cached extClass _ exts ⟨[], [], 0⟩ key1

/-- Witness for `c7_idempotent_refresh`: one child-contributing extension
together with `factErrExt`, whose factory raises — the second refresh still
re-invokes no factory (it is cached under the empty list). -/
theorem c7_witness :
    (refresh_contributions ["C"] defaultValidate [⟨"qE", [⟨"x", "C", 1⟩], none⟩, factErrExt]
        (refreshState (refresh_contributions ["C"] defaultValidate
          [⟨"qE", [⟨"x", "C", 1⟩], none⟩, factErrExt] ⟨[], []⟩))).contributions =
      (refresh_contributions ["C"] defaultValidate [⟨"qE", [⟨"x", "C", 1⟩], none⟩, factErrExt]
        ⟨[], []⟩).contributions ∧
    (refresh_contributions ["C"] defaultValidate [⟨"qE", [⟨"x", "C", 1⟩], none⟩, factErrExt]
        (refreshState (refresh_contributions ["C"] defaultValidate
          [⟨"qE", [⟨"x", "C", 1⟩], none⟩, factErrExt] ⟨[], []⟩))).factoryCalls = 0 ∧
    (refresh_contributions ["C"] defaultValidate [⟨"qE", [⟨"x", "C", 1⟩], none⟩, factErrExt]
        ⟨[], []⟩).publishes = 1 ∧
    (refresh_contributions ["C"] defaultValidate [⟨"qE", [⟨"x", "C", 1⟩], none⟩, factErrExt]
        (refreshState (refresh_contributions ["C"] defaultValidate
          [⟨"qE", [⟨"x", "C", 1⟩], none⟩, factErrExt] ⟨[], []⟩))).publishes = 1 :=
  c7_idempotent_refresh ["C"] defaultValidate [⟨"qE", [⟨"x", "C", 1⟩], none⟩, factErrExt]
    ⟨[], []⟩ (by decide)

theorem hasKeyD_dictInsert_self {κ α : Type} [DecidableEq κ] (d : List (κ × α)) (k : κ) (v : α) :
    hasKeyD (dictInsert d k v) k = true := by
  simp [hasKeyD, lookupD_dictInsert_self]

theorem hasKeyD_dictInsert_of {κ α : Type} [DecidableEq κ] (d : List (κ × α)) (k k2 : κ) (v : α)
    (h : hasKeyD d k2 = true) : hasKeyD (dictInsert d k v) k2 = true := by
  by_cases hk : k = k2
  · subst hk
    exact hasKeyD_dictInsert_self d k v
  · simpa [hasKeyD, lookupD_dictInsert_ne d k k2 v hk] using h

theorem processContribs_mono_tb (validate : Contribution → Bool × String) (e : Extension) :
    ∀ (cs : List Contribution) (acc : MapAcc) (k : String),
      hasKeyD acc.tb k = true →
      hasKeyD (processContribs validate e cs acc).tb k = true
  | [], _, _, h => h
  | c :: cs, acc, k, h => by
    simp only [processContribs]
    apply processContribs_mono_tb validate e cs _ k
    have htb1 : hasKeyD (if hasKeyD acc.contribs c.id then
        dictInsert acc.tb (dupKey c.id (freshDupIdx acc.tb c.id (acc.tb.length + 1) 0))
          (dupMsg e.qualified_id c.id)
      else acc.tb) k = true := by
      by_cases hd : hasKeyD acc.contribs c.id
      · simpa [hd] using hasKeyD_dictInsert_of _ _ _ _ h
      · simpa [hd] using h
    rcases hv : validate c with ⟨res, m⟩
    cases res
    · simpa [hv] using hasKeyD_dictInsert_of _ _ _ _ htb1
    · simpa [hv] using htb1

theorem processContribs_mono_contribs (validate : Contribution → Bool × String) (e : Extension) :
    ∀ (cs : List Contribution) (acc : MapAcc) (k : String),
      hasKeyD acc.contribs k = true →
      hasKeyD (processContribs validate e cs acc).contribs k = true
  | [], _, _, h => h
  | c :: cs, acc, k, h => by
    simp only [processContribs]
    apply processContribs_mono_contribs validate e cs _ k
    exact hasKeyD_dictInsert_of _ _ _ _ h

/-- A contribution failing validation leaves an error entry keyed by its id
and an entry under its id in the mapping under construction. -/
theorem processContribs_creates (validate : Contribution → Bool × String) (e : Extension) :
    ∀ (cs : List Contribution) (acc : MapAcc) (c : Contribution) (msg : String),
      c ∈ cs → validate c = (false, msg) →
      hasKeyD (processContribs validate e cs acc).tb c.id = true ∧
      hasKeyD (processContribs validate e cs acc).contribs c.id = true
  | [], _, _, _, hc, _ => by simp at hc
  | c2 :: cs, acc, c, msg, hc, hv => by
    rcases List.mem_cons.mp hc with he | he
    · subst he
      simp only [processContribs, hv]
      constructor
      · exact processContribs_mono_tb validate e cs _ _ (hasKeyD_dictInsert_self _ _ _)
      · exact processContribs_mono_contribs validate e cs _ _ (hasKeyD_dictInsert_self _ _ _)
    · simp only [processContribs]
      exact processContribs_creates validate e cs _ c msg he hv

theorem buildMapping_mono_tb (validate : Contribution → Bool × String) :
    ∀ (exts : List Extension) (ne : List (Extension × List Contribution)) (acc : MapAcc)
      (k : String), hasKeyD acc.tb k = true →
      hasKeyD (buildMapping validate exts ne acc).2.tb k = true
  | [], _, _, _, h => h
  | e :: rest, ne, acc, k, h => by
    simp only [buildMapping]
    exact buildMapping_mono_tb validate rest _ _ k (processContribs_mono_tb validate e _ acc k h)

theorem buildMapping_mono_contribs (validate : Contribution → Bool × String) :
    ∀ (exts : List Extension) (ne : List (Extension × List Contribution)) (acc : MapAcc)
      (k : String), hasKeyD acc.contribs k = true →
      hasKeyD (buildMapping validate exts ne acc).2.contribs k = true
  | [], _, _, _, h => h
  | e :: rest, ne, acc, k, h => by
    simp only [buildMapping]
    exact buildMapping_mono_contribs validate rest _ _ k
      (processContribs_mono_contribs validate e _ acc k h)

theorem buildMapping_creates (validate : Contribution → Bool × String) :
    ∀ (exts : List Extension) (ne : List (Extension × List Contribution)) (acc : MapAcc)
      (e : Extension) (c : Contribution) (msg : String),
      e ∈ exts → c ∈ (lookupD ne e).getD [] → validate c = (false, msg) →
      hasKeyD (buildMapping validate exts ne acc).2.tb c.id = true ∧
      hasKeyD (buildMapping validate exts ne acc).2.contribs c.id = true
  | [], _, _, _, _, _, hmem, _, _ => by simp at hmem
  | e2 :: rest, ne, acc, e, c, msg, hmem, hc, hv => by
    rcases List.mem_cons.mp hmem with he | he
    · subst he
      simp only [buildMapping, dictSetdefault_snd]
      have h := processContribs_creates validate e ((lookupD ne e).getD []) acc c msg hc hv
      exact ⟨buildMapping_mono_tb validate rest _ _ _ h.1,
             buildMapping_mono_contribs validate rest _ _ _ h.2⟩
    · simp only [buildMapping]
      refine buildMapping_creates validate rest _ _ e c msg he ?_ hv
      rw [dictSetdefault_effList]
      exact hc

theorem buildExts_lookup_mem (extClass : List String)
    (old : List (Extension × List Contribution)) (k : Extension) :
    ∀ (exts : List Extension) (acc : BuildAcc), exts.Nodup → k ∈ exts →
      hasKeyD acc.newExts k = false →
      lookupD (buildExts extClass old exts acc).newExts k =
        (if hasKeyD old k then some ((lookupD old k).getD [])
         else
           match load_contributions extClass k with
           | .ok cs => some cs
           | .error _ => none) := by
  intro exts
  induction exts with
  | nil => intro acc _ hmem; simp at hmem
  | cons e rest ih =>
    intro acc hnd hmem hacc
    rcases List.mem_cons.mp hmem with he | he
    · subst he
      have hknotrest : ∀ e2 ∈ rest, e2 ≠ k := by
        intro e2 h2 hek
        subst hek
        exact (List.nodup_cons.mp hnd).1 h2
      have haccnone : lookupD acc.newExts k = none := by
        simpa [hasKeyD, Option.isSome_iff_exists] using hacc
      by_cases hck : hasKeyD old k
      · simp only [buildExts, if_pos hck, hck, if_true]
        rw [buildExts_lookup_notmem extClass old k rest _ hknotrest]
        rw [lookupD_extendEntry_self]
        simp [haccnone]
      · cases hl : load_contributions extClass k with
        | error m =>
          simp only [buildExts, if_neg hck, hl]
          rw [buildExts_lookup_notmem extClass old k rest _ hknotrest]
          exact haccnone
        | ok cs =>
          simp only [buildExts, if_neg hck, hl]
          rw [buildExts_lookup_notmem extClass old k rest _ hknotrest]
          rw [lookupD_extendEntry_self]
          simp [haccnone]
    · have hek : e ≠ k := by
        intro hek
        subst hek
        exact (List.nodup_cons.mp hnd).1 he
      simp only [buildExts]
      split
      · refine ih _ (List.nodup_cons.mp hnd).2 he ?_
        rw [hasKeyD, lookupD_extendEntry_ne _ _ _ _ hek]
        exact hacc
      · cases hl : load_contributions extClass e with
        | error m => exact ih _ (List.nodup_cons.mp hnd).2 he hacc
        | ok cs =>
          refine ih _ (List.nodup_cons.mp hnd).2 he ?_
          rw [hasKeyD, lookupD_extendEntry_ne _ _ _ _ hek]
          exact hacc

theorem hasKeyD_isEmpty_false {κ α : Type} [DecidableEq κ] (d : List (κ × α)) (k : κ)
    (h : hasKeyD d k = true) : d.isEmpty = false := by
  cases d with
  | nil => simp [hasKeyD, lookupD] at h
  | cons p rest => rfl

/-- Claim C2: in every refresh, every processed contribution on which
`validate_ext` returns `(false, msg)` leaves an error entry keyed by the
contribution's id in the batched report (which is signalled) and an entry
under its id in the published mapping — the contribution is recorded but not
excluded. The second conjunct pins the exact behaviour on a single-extension
refresh: the failing contribution object itself is installed and the message
carries the `"While loading <qid>,"` prefix. -/
theorem c2_validation_soft_failure :
    (∀ (extClass : List String) (validate : Contribution → Bool × String)
      (exts : List Extension) (st : ExtState) (e : Extension) (c : Contribution) (msg : String),
      exts.Nodup → e ∈ exts → c ∈ processedContribs extClass st e →
      validate c = (false, msg) →
      hasKeyD (refresh_contributions extClass validate exts st).tb c.id = true ∧
      hasKeyD (refresh_contributions extClass validate exts st).contributions c.id = true ∧
      (refresh_contributions extClass validate exts st).signaled = true) ∧
    (∀ (qid cid msg : String) (tag : Nat) (validate : Contribution → Bool × String),
      validate ⟨cid, "C", tag⟩ = (false, msg) →
      lookupD (refresh_contributions ["C"] validate [⟨qid, [⟨cid, "C", tag⟩], none⟩]
        ⟨[], []⟩).contributions cid = some ⟨cid, "C", tag⟩ ∧
      lookupD (refresh_contributions ["C"] validate [⟨qid, [⟨cid, "C", tag⟩], none⟩]
        ⟨[], []⟩).tb cid = some (valMsg qid msg) ∧
      (refresh_contributions ["C"] validate [⟨qid, [⟨cid, "C", tag⟩], none⟩]
        ⟨[], []⟩).signaled = true) := by
  constructor
  · intro extClass validate exts st e c msg hnd hmem hproc hv
    have hemp : exts.isEmpty = false := by
      cases exts with
      | nil => simp at hmem
      | cons x rest => rfl
    have hlook : c ∈ (lookupD (buildExts extClass st.extensions exts
        ⟨[], [], 0⟩).newExts e).getD [] := by
      rw [buildExts_lookup_mem extClass st.extensions e exts ⟨[], [], 0⟩ hnd hmem rfl]
      unfold processedContribs at hproc
      by_cases hck : hasKeyD st.extensions e
      · simpa [hck] using hproc
      · rw [if_neg hck] at hproc ⊢
        cases hl : load_contributions extClass e with
        | error m =>
          rw [hl] at hproc
          simp at hproc
        | ok cs =>
          rw [hl] at hproc
          simpa using hproc
    have hkeys := buildMapping_creates validate exts
      (buildExts extClass st.extensions exts ⟨[], [], 0⟩).newExts
      ⟨[], (buildExts extClass st.extensions exts ⟨[], [], 0⟩).tb⟩ e c msg hmem hlook hv
    simp only [refresh_contributions, hemp, Bool.false_eq_true, if_false]
    refine ⟨hkeys.1, hkeys.2, ?_⟩
    rw [hasKeyD_isEmpty_false _ _ hkeys.1]
    rfl
  · intro qid cid msg tag validate hv
    simp [refresh_contributions, buildExts, buildMapping, dictSetdefault, processContribs,
      load_contributions, factoryInvoked, hasKeyD, lookupD, extendEntry, dictInsert, hv]

/-- Witness for `c2_validation_soft_failure`: both conjuncts applied with
the always-rejecting validator on one extension. -/
theorem c2_witness :
    (hasKeyD (refresh_contributions ["C"] (fun _ => (false, "bad"))
      [⟨"q.e", [⟨"x", "C", 1⟩], none⟩] ⟨[], []⟩).tb "x" = true ∧
     hasKeyD (refresh_contributions ["C"] (fun _ => (false, "bad"))
      [⟨"q.e", [⟨"x", "C", 1⟩], none⟩] ⟨[], []⟩).contributions "x" = true ∧
     (refresh_contributions ["C"] (fun _ => (false, "bad"))
      [⟨"q.e", [⟨"x", "C", 1⟩], none⟩] ⟨[], []⟩).signaled = true) ∧
    lookupD (refresh_contributions ["C"] (fun _ => (false, "bad"))
      [⟨"q.e", [⟨"x", "C", 1⟩], none⟩] ⟨[], []⟩).contributions "x" = some ⟨"x", "C", 1⟩ :=
  ⟨c2_validation_soft_failure.1 ["C"] (fun _ => (false, "bad"))
      [⟨"q.e", [⟨"x", "C", 1⟩], none⟩] ⟨[], []⟩ ⟨"q.e", [⟨"x", "C", 1⟩], none⟩
      ⟨"x", "C", 1⟩ "bad" (by simp) (by simp) (by decide) rfl,
   (c2_validation_soft_failure.2 "q.e" "x" "bad" 1 (fun _ => (false, "bad")) rfl).1⟩
